import Mathlib

/-!
Verification of the QuickApolloLeads core business logic: a shallow embedding
of the credit ledger, order workflow, affiliate attribution and commission
aggregation, translated from `src/server/routes.ts`, the `DatabaseStorage`
class, the registration handler, `src/shared/schema.ts` and the admin
monthly-bill grouping in `affiliate-admin.tsx`.

Modelling conventions:
- Monetary amounts (SQL `decimal` columns, JS floats on amounts) are embedded
  as exact rationals (`Rat`); Stripe `amount_total` is a `Nat` number of cents.
- Credit balances (SQL `integer`) are embedded as `Int`; the source never
  clamps a deduction at zero, and neither does the embedding.
- Timestamps that the claims only compare for presence (`paidAt`,
  `completedAt`) are abstract `Nat` ticks; creation dates that the grouping
  logic inspects are `DateYM` (calendar year and 1-based month).
- The `"YYYY-MM"` month key built with `padStart(2,'0')` compares (via JS
  string comparison on four-digit years) exactly like the number
  `year * 100 + month`; `monthKey` uses that numeric embedding, while
  `formatMonth` keeps the literal string for the stored `paymentMonth`.
- Row ids produced by `gen_random_uuid()` / `Date.now()` randomness are drawn
  from a counter `DB.nextId` (webhook rows) or passed as a parameter assumed
  fresh (registration).
- `JS Math.round x` is `⌊x + 1/2⌋` (round half toward positive infinity),
  exact on the rationals the embedding computes with.
-/

/-- Calendar year and 1-based month of a row's creation date. -/
structure DateYM where
  year : Nat
  month : Nat
deriving DecidableEq, Repr

/-- Numeric embedding of the `"YYYY-MM"` grouping key
(`${date.getFullYear()}-${String(date.getMonth() + 1).padStart(2, '0')}`):
for four-digit years, string order of the zero-padded key coincides with
numeric order of `year * 100 + month`. -/
def monthKey (d : DateYM) : Nat := d.year * 100 + d.month

/-- `String(n).padStart(2, '0')`. -/
def pad2 (n : Nat) : String := if n < 10 then "0" ++ toString n else toString n

/-- The literal `"YYYY-MM"` string stored in `paymentMonth`. -/
def formatMonth (d : DateYM) : String := toString d.year ++ "-" ++ pad2 d.month

/-- A row of the `users` table (the columns the core logic reads). -/
structure User where
  id : String
  email : String
  credits : Int
  affiliateCode : Option String
  referredBy : Option String
deriving DecidableEq, Repr

/-- A row of the `orders` table. -/
structure Order where
  id : String
  userId : String
  apolloUrl : String
  creditsUsed : Int
  estimatedLeads : Option Int
  deliveryEmail : String
  status : String
  csvUrl : Option String
  deliveryType : Option String
  notes : Option String
  completedAt : Option Nat
deriving DecidableEq, Repr

/-- A row of the `credit_purchases` table. -/
structure CreditPurchase where
  id : String
  userId : String
  amount : Rat
  credits : Int
  status : String
deriving DecidableEq, Repr

/-- A row of the `affiliate_clicks` table. -/
structure AffiliateClick where
  id : String
  affiliateCode : String
  ipAddress : Option String
  userAgent : Option String
  referrerUrl : Option String
deriving DecidableEq, Repr

/-- A row of the `affiliate_commissions` table. -/
structure AffiliateCommission where
  id : String
  affiliateUserId : String
  referredUserId : String
  purchaseId : String
  saleAmount : Rat
  commissionAmount : Rat
  status : String
  paymentMonth : Option String
  paidAt : Option Nat
  createdAt : DateYM
deriving DecidableEq, Repr

/-- The database state: the five tables plus a counter feeding generated
row ids. -/
structure DB where
  users : List User
  orders : List Order
  purchases : List CreditPurchase
  clicks : List AffiliateClick
  commissions : List AffiliateCommission
  nextId : Nat
deriving DecidableEq, Repr

/-- Draw a fresh generated id (models `gen_random_uuid()` defaults). -/
def genId (db : DB) : String × DB :=
  ("row_" ++ toString db.nextId, { db with nextId := db.nextId + 1 })

/-- `DatabaseStorage.getUser`: `select … where eq(users.id, id)`, first row. -/
def getUser (db : DB) (id : String) : Option User :=
  db.users.find? (fun u => u.id = id)

/-- `DatabaseStorage.addCredits`: unconditional
`set credits = credits + n where id = userId`, returning the updated row. -/
def addCredits (db : DB) (userId : String) (credits : Int) : Option User × DB :=
  let f : User → User := fun u =>
    if u.id = userId then { u with credits := u.credits + credits } else u
  let newUsers := db.users.map f
  ((newUsers.filter (fun u => u.id = userId)).head?, { db with users := newUsers })

/-- `DatabaseStorage.deductCredits`: unconditional
`set credits = credits - n where id = userId`, returning the updated row. -/
def deductCredits (db : DB) (userId : String) (credits : Int) : Option User × DB :=
  let f : User → User := fun u =>
    if u.id = userId then { u with credits := u.credits - credits } else u
  let newUsers := db.users.map f
  ((newUsers.filter (fun u => u.id = userId)).head?, { db with users := newUsers })

/-- `DatabaseStorage.createOrder`: insert one row, status defaulting to
`"pending"` per the schema, id generated. -/
def createOrder (db : DB) (userId apolloUrl : String) (creditsUsed : Int)
    (estimatedLeads : Option Int) (deliveryEmail : String) : Order × DB :=
  let (oid, db1) := genId db
  let o : Order :=
    { id := oid, userId := userId, apolloUrl := apolloUrl,
      creditsUsed := creditsUsed, estimatedLeads := estimatedLeads,
      deliveryEmail := deliveryEmail, status := "pending", csvUrl := none,
      deliveryType := none, notes := none, completedAt := none }
  (o, { db1 with orders := db1.orders ++ [o] })

/-- Outcome of `POST /api/orders` (the order-creation route). -/
inductive OrderResult where
  | insufficientCredits
  | created (order : Order)
deriving DecidableEq, Repr

/-- The `POST /api/orders` handler (`routes.ts` lines 313-350): look the user
up, reject with "Insufficient credits" when missing or when
`user.credits < creditsUsed`, otherwise deduct then insert the order. -/
def createOrderRoute (db : DB) (userId apolloUrl : String) (creditsUsed : Int)
    (estimatedLeads : Option Int) (deliveryEmail : String) : OrderResult × DB :=
  match getUser db userId with
  | none => (.insufficientCredits, db)
  | some u =>
    if u.credits < creditsUsed then (.insufficientCredits, db)
    else
      let db1 := (deductCredits db userId creditsUsed).2
      let (order, db2) := createOrder db1 userId apolloUrl creditsUsed
        estimatedLeads deliveryEmail
      (.created order, db2)

/-- JS `Math.round`: round half toward positive infinity, `⌊x + 1/2⌋`. -/
def jsRound (q : Rat) : Int := ⌊q + 1 / 2⌋

/-- Modelled from the spec: `round(x, 2 decimal places)` — round to the
nearest hundredth, halves up, as the spec's `round(saleAmount * 0.15, 2)`. -/
def roundTo2 (q : Rat) : Rat := (jsRound (q * 100) : Rat) / 100

/-- `DatabaseStorage.createAffiliateCommission`: insert one row (id
generated, `paidAt` null, `createdAt` defaulting to now). -/
def createAffiliateCommission (db : DB)
    (affiliateUserId referredUserId purchaseId : String)
    (saleAmount commissionAmount : Rat) (paymentMonth : Option String)
    (status : String) (now : DateYM) : AffiliateCommission × DB :=
  let (cid, db1) := genId db
  let c : AffiliateCommission :=
    { id := cid, affiliateUserId := affiliateUserId,
      referredUserId := referredUserId, purchaseId := purchaseId,
      saleAmount := saleAmount, commissionAmount := commissionAmount,
      status := status, paymentMonth := paymentMonth, paidAt := none,
      createdAt := now }
  (c, { db1 with commissions := db1.commissions ++ [c] })

/-- A `checkout.session.completed` Stripe event as the webhook reads it:
session id, the `{userId, credits}` metadata and `amount_total` in cents. -/
structure CheckoutEvent where
  sessionId : String
  userId : String
  credits : Int
  amountTotal : Nat
deriving DecidableEq, Repr

/-- The `checkout.session.completed` branch of `POST /api/stripe-webhook`
(`routes.ts` lines 228-307): check the user exists, unconditionally add the
credits, insert the purchase row keyed by the session id (a duplicate insert
throws on the primary key and is swallowed, `purchaseId` staying
`session.id`), then, when the updated user carries `referredBy`, insert one
pending commission with `commissionAmount = Math.round(amountPaid*0.15*100)/100`
and `paymentMonth` set to the current month. -/
def checkoutSessionCompleted (db : DB) (ev : CheckoutEvent) (now : DateYM) : DB :=
  match getUser db ev.userId with
  | none => db
  | some _ =>
    let db1 := (addCredits db ev.userId ev.credits).2
    match (addCredits db ev.userId ev.credits).1 with
    | none => db1
    | some updatedUser =>
      let amountPaid : Rat := (ev.amountTotal : Rat) / 100
      let db2 :=
        if db1.purchases.any (fun p => p.id = ev.sessionId) then db1
        else { db1 with purchases := db1.purchases ++
          [{ id := ev.sessionId, userId := ev.userId, amount := amountPaid,
             credits := ev.credits, status := "completed" }] }
      match updatedUser.referredBy with
      | none => db2
      | some aff =>
        let commissionAmount : Rat := (jsRound (amountPaid * (0.15 : Rat) * 100) : Rat) / 100
        (createAffiliateCommission db2 aff updatedUser.id ev.sessionId
          amountPaid commissionAmount (some (formatMonth now)) "pending" now).2

/-- `DatabaseStorage.markCommissionsPaid`: bulk
`set status='paid', paymentMonth, paidAt=now where id in commissionIds`. -/
def markCommissionsPaid (db : DB) (commissionIds : List String)
    (paymentMonth : String) (now : Nat) : DB :=
  { db with commissions := db.commissions.map (fun c =>
      if c.id ∈ commissionIds then
        { c with status := "paid", paymentMonth := some paymentMonth,
                 paidAt := some now }
      else c) }

/-- `DatabaseStorage.trackAffiliateClick`: insert one click row. The
`affiliate_clicks.affiliate_code` column references `users.affiliate_code`
(schema.ts line 101), so the insert commits only when some user carries the
code; otherwise the foreign key rejects it and no row lands. -/
def trackAffiliateClick (db : DB) (affiliateCode : String)
    (ipAddress userAgent referrerUrl : Option String) :
    Option (AffiliateClick × DB) :=
  if db.users.any (fun u => u.affiliateCode = some affiliateCode) then
    let (cid, db1) := genId db
    let c : AffiliateClick :=
      { id := cid, affiliateCode := affiliateCode, ipAddress := ipAddress,
        userAgent := userAgent, referrerUrl := referrerUrl }
    some (c, { db1 with clicks := db1.clicks ++ [c] })
  else none

/-- `DatabaseStorage.fulfillOrder`: `update orders set csvUrl, deliveryType,
notes, status, completedAt where id = orderId`, returning the first updated
row (`undefined` when no row matched). -/
def fulfillOrder (db : DB) (id : String) (deliveryType : Option String)
    (csvUrl : String) (notes : Option String) (status : String)
    (completedAt : Nat) : Option Order × DB :=
  let f : Order → Order := fun o =>
    if o.id = id then
      { o with csvUrl := some csvUrl, deliveryType := deliveryType,
               notes := notes, status := status,
               completedAt := some completedAt }
    else o
  let newOrders := db.orders.map f
  ((newOrders.filter (fun o => o.id = id)).head?, { db with orders := newOrders })

/-- Outcome of `PUT /api/team/orders/:orderId/fulfill`, with the HTTP status
each branch responds with. -/
inductive FulfillResult where
  | badRequest
  | serverError
  | ok (order : Order)
deriving DecidableEq, Repr

/-- HTTP status code of a fulfill response: 400 for the missing-CSV-URL
rejection, 500 for the catch-all error handler, 200 on success. -/
def FulfillResult.statusCode : FulfillResult → Nat
  | .badRequest => 400
  | .serverError => 500
  | .ok _ => 200

/-- The `PUT /api/team/orders/:orderId/fulfill` handler (`routes.ts` lines
394-427): reject a falsy `csvUrl` with 400 before touching storage; run the
update with status `'completed'` and `completedAt = new Date()`; when no row
matched, reading `updatedOrder.userId` throws and the catch responds 500. -/
def fulfillOrderRoute (db : DB) (orderId : String) (deliveryType : Option String)
    (csvUrl : String) (notes : Option String) (now : Nat) : FulfillResult × DB :=
  if csvUrl = "" then (.badRequest, db)
  else
    let db1 := (fulfillOrder db orderId deliveryType csvUrl notes "completed" now).2
    match (fulfillOrder db orderId deliveryType csvUrl notes "completed" now).1 with
    | none => (.serverError, db1)
    | some updatedOrder => (.ok updatedOrder, db1)

/-- Outcome of `POST /api/register`. -/
inductive RegisterResult where
  | validationError
  | userExists
  | registered (user : User)
deriving DecidableEq, Repr

/-- The referral-attribution part of `POST /api/register`: resolve the
pending session affiliate code to the carrying user's id; unknown codes
resolve to nothing (not an error). -/
def registerReferredBy (db : DB) (sessionAffiliateCode : Option String) :
    Option String :=
  match sessionAffiliateCode with
  | none => none
  | some code =>
    match db.users.find? (fun u => u.affiliateCode = some code) with
    | none => none
    | some affiliateUser => some affiliateUser.id

/-- The `POST /api/register` handler: reject missing fields and duplicate
emails; attribute the referral from the session; insert the new user with
zero credits. The generated `user_${Date.now()}_${random}` id is passed in
as `freshId`. -/
def registerUser (db : DB) (email password firstName : String)
    (sessionAffiliateCode : Option String) (freshId : String) :
    RegisterResult × DB :=
  if email = "" ∨ password = "" ∨ firstName = "" then (.validationError, db)
  else
    match db.users.find? (fun u => u.email = email) with
    | some _ => (.userExists, db)
    | none =>
      let u : User := { id := freshId, email := email, credits := 0,
                        affiliateCode := none,
                        referredBy := registerReferredBy db sessionAffiliateCode }
      (.registered u, { db with users := db.users ++ [u] })

/-- One element of the `GET /api/admin/pending-commissions` payload as
`getMonthlyBills` reads it: the commission fields it touches plus the joined
affiliate user. -/
structure AdminCommissionRow where
  id : String
  saleAmount : Rat
  commissionAmount : Rat
  createdAt : DateYM
  affiliate : User
deriving DecidableEq, Repr

/-- The per-affiliate sub-group nested in a monthly bill
(`acc[monthKey].affiliates[affiliateId]`). -/
structure AffiliateGroup where
  affiliate : User
  totalCommissions : Rat
  totalSales : Rat
  transactionCount : Nat
  commissionIds : List String
deriving DecidableEq, Repr

/-- One monthly bill (`acc[monthKey]`); the JS object keyed by month is an
insertion-ordered association list here, as is the nested `affiliates`
object (their `"YYYY-MM"` and user-id keys are not array indices, so JS
preserves insertion order). The display-only `monthName`
(`toLocaleDateString`) is not modelled. -/
structure MonthlyBill where
  month : Nat
  totalCommissions : Rat
  totalSales : Rat
  transactionCount : Nat
  commissionIds : List String
  affiliates : List AffiliateGroup
deriving DecidableEq, Repr

/-- A fresh affiliate sub-group for `commission.affiliate`. -/
def emptyGroup (a : User) : AffiliateGroup :=
  { affiliate := a, totalCommissions := 0, totalSales := 0,
    transactionCount := 0, commissionIds := [] }

/-- Accumulate one commission into its affiliate sub-group. -/
def addToGroup (g : AffiliateGroup) (c : AdminCommissionRow) : AffiliateGroup :=
  { g with totalCommissions := g.totalCommissions + c.commissionAmount,
           totalSales := g.totalSales + c.saleAmount,
           transactionCount := g.transactionCount + 1,
           commissionIds := g.commissionIds ++ [c.id] }

/-- Accumulate one commission into the bill's `affiliates` map: create the
entry keyed by `commission.affiliate.id` when absent, then update it. -/
def updateGroups (gs : List AffiliateGroup) (c : AdminCommissionRow) :
    List AffiliateGroup :=
  if gs.any (fun g => g.affiliate.id = c.affiliate.id) then
    gs.map (fun g => if g.affiliate.id = c.affiliate.id then addToGroup g c else g)
  else gs ++ [addToGroup (emptyGroup c.affiliate) c]

/-- A fresh monthly bill for key `k`. -/
def emptyBill (k : Nat) : MonthlyBill :=
  { month := k, totalCommissions := 0, totalSales := 0, transactionCount := 0,
    commissionIds := [], affiliates := [] }

/-- Accumulate one commission into its monthly bill: bump the totals, append
the id, update the nested affiliate map. -/
def addToBill (b : MonthlyBill) (c : AdminCommissionRow) : MonthlyBill :=
  { b with totalCommissions := b.totalCommissions + c.commissionAmount,
           totalSales := b.totalSales + c.saleAmount,
           transactionCount := b.transactionCount + 1,
           commissionIds := b.commissionIds ++ [c.id],
           affiliates := updateGroups b.affiliates c }

/-- One step of the `pendingCommissions.reduce` in `getMonthlyBills`
(`affiliate-admin.tsx` lines 148-188): create the bill keyed by the
creation month when absent, then update it. -/
def groupStep (acc : List MonthlyBill) (c : AdminCommissionRow) :
    List MonthlyBill :=
  let k := monthKey c.createdAt
  if acc.any (fun b => b.month = k) then
    acc.map (fun b => if b.month = k then addToBill b c else b)
  else acc ++ [addToBill (emptyBill k) c]

/-- Comparator of the final `sort((a, b) => b.month.localeCompare(a.month))`:
bills in descending month order. -/
def monthGE (a b : MonthlyBill) : Prop := b.month ≤ a.month

instance : DecidableRel monthGE := fun a b => Nat.decLe b.month a.month

instance : IsTotal MonthlyBill monthGE :=
  ⟨fun a b => (Nat.le_total b.month a.month).elim Or.inl Or.inr⟩

instance : IsTrans MonthlyBill monthGE :=
  ⟨fun _ _ _ hab hbc => Nat.le_trans hbc hab⟩

/-- `getMonthlyBills` (`affiliate-admin.tsx` lines 144-191): the reduce over
the pending commissions followed by the descending sort on the month key
(months are pairwise distinct, so any comparison sort yields this result). -/
def getMonthlyBills (rows : List AdminCommissionRow) : List MonthlyBill :=
  List.insertionSort monthGE (rows.foldl groupStep [])

/-- The members of month `k` among `rows` (used to state what the grouping
computes). -/
def rowsInMonth (rows : List AdminCommissionRow) (k : Nat) :
    List AdminCommissionRow :=
  rows.filter (fun c => monthKey c.createdAt = k)

/-- The distinct month keys of `rows`, in first-occurrence order. -/
def monthKeys (rows : List AdminCommissionRow) : List Nat :=
  rows.foldl
    (fun ks c => if monthKey c.createdAt ∈ ks then ks else ks ++ [monthKey c.createdAt])
    []

/-- The rows of affiliate `aid` among `ms`. -/
def rowsOfAffiliate (ms : List AdminCommissionRow) (aid : String) :
    List AdminCommissionRow :=
  ms.filter (fun c => c.affiliate.id = aid)

/-- The distinct affiliate ids of `ms`, in first-occurrence order. -/
def affiliateIds (ms : List AdminCommissionRow) : List String :=
  ms.foldl
    (fun ks c => if c.affiliate.id ∈ ks then ks else ks ++ [c.affiliate.id])
    []

/-! Concrete instances used by the witness and counterexample theorems. -/

/-- A purchaser with no referrer, for exercising the webhook twice. -/
def userC2 : User :=
  { id := "u1", email := "buyer@x.y", credits := 0, affiliateCode := none,
    referredBy := none }

/-- Database holding just that purchaser. -/
def dbC2 : DB :=
  { users := [userC2], orders := [], purchases := [], clicks := [],
    commissions := [], nextId := 0 }

/-- One `checkout.session.completed` event: 5000 credits for $10.00. -/
def evC2 : CheckoutEvent :=
  { sessionId := "cs_1", userId := "u1", credits := 5000, amountTotal := 1000 }

/-- The date the webhook runs on. -/
def dC2 : DateYM := { year := 2025, month := 6 }

/-- An affiliate and a purchaser they referred, plus the referrer row. -/
def affC3 : User :=
  { id := "aff1", email := "aff@x.y", credits := 0,
    affiliateCode := some "QWERTY", referredBy := none }

/-- A purchaser referred by `affC3`. -/
def userC3 : User :=
  { id := "u2", email := "ref@x.y", credits := 0, affiliateCode := none,
    referredBy := some "aff1" }

/-- Database with the affiliate and the referred purchaser. -/
def dbC3 : DB :=
  { users := [affC3, userC3], orders := [], purchases := [], clicks := [],
    commissions := [], nextId := 0 }

/-- A $19.00 purchase (the 10,000-credit package) by the referred user. -/
def evC3 : CheckoutEvent :=
  { sessionId := "cs_2", userId := "u2", credits := 10000, amountTotal := 1900 }

/-- Pending commissions spread over two months (January and February 2025)
for the grouping witness. -/
def rowsC4 : List AdminCommissionRow :=
  [{ id := "c1", saleAmount := 19, commissionAmount := 57 / 20,
     createdAt := { year := 2025, month := 1 }, affiliate := affC3 },
   { id := "c2", saleAmount := 10, commissionAmount := 3 / 2,
     createdAt := { year := 2025, month := 2 }, affiliate := affC3 },
   { id := "c3", saleAmount := 90, commissionAmount := 27 / 2,
     createdAt := { year := 2025, month := 1 }, affiliate := affC3 }]

/-- Database holding just the affiliate, before a referred user registers. -/
def dbC5 : DB :=
  { users := [affC3], orders := [], purchases := [], clicks := [],
    commissions := [], nextId := 0 }

/-- The purchase the referred registrant `u9` completes. -/
def evC5 : CheckoutEvent :=
  { sessionId := "cs_9", userId := "u9", credits := 10000, amountTotal := 1900 }

/-- Database with no orders at all, for the unknown-order fulfill path. -/
def dbC7 : DB :=
  { users := [], orders := [], purchases := [], clicks := [],
    commissions := [], nextId := 0 }

/-- A pending order awaiting fulfillment. -/
def orderC7 : Order :=
  { id := "o1", userId := "u1", apolloUrl := "https://apollo.io/s",
    creditsUsed := 5000, estimatedLeads := some 5000,
    deliveryEmail := "a@b.c", status := "pending", csvUrl := none,
    deliveryType := none, notes := none, completedAt := none }

/-- Database with one pending order, for the fulfill success path. -/
def dbC10 : DB :=
  { users := [userC2], orders := [orderC7], purchases := [], clicks := [],
    commissions := [], nextId := 1 }

/-- Database whose only user carries no affiliate code, so any click insert
violates the `affiliate_code` foreign key. -/
def dbC8 : DB :=
  { users := [userC2], orders := [], purchases := [], clicks := [],
    commissions := [], nextId := 0 }

/-- A pending commission to be marked paid. -/
def cRowC9 : AffiliateCommission :=
  { id := "k1", affiliateUserId := "aff1", referredUserId := "u2",
    purchaseId := "cs_2", saleAmount := 19, commissionAmount := 57 / 20,
    status := "pending", paymentMonth := some "2025-04", paidAt := none,
    createdAt := { year := 2025, month := 4 } }

/-- Database holding that pending commission. -/
def dbC9 : DB :=
  { users := [], orders := [], purchases := [], clicks := [],
    commissions := [cRowC9], nextId := 0 }

section Grouping

variable {α β : Type} {κ : Type} [DecidableEq κ]

/-- The distinct keys of `l` under `key`, in first-occurrence order (the
iteration order of a JS object accumulated by a reduce). -/
def firstKeys (key : α → κ) (l : List α) : List κ :=
  l.foldl (fun ks c => if key c ∈ ks then ks else ks ++ [key c]) []

/-- One step of an insertion-ordered keyed accumulation, the shape shared by
the month-level and affiliate-level reduces of `getMonthlyBills`. -/
def gStep (key : α → κ) (fresh : α → β) (add : β → α → β) (keyOf : β → κ)
    (acc : List β) (c : α) : List β :=
  if acc.any (fun b => keyOf b = key c) then
    acc.map (fun b => if keyOf b = key c then add b c else b)
  else acc ++ [add (fresh c) c]

/-- The group a nonempty member list accumulates to. -/
def gBuild (fresh : α → β) (add : β → α → β) : List α → Option β
  | [] => none
  | c :: cs => some (cs.foldl add (add (fresh c) c))

theorem firstKeys_append_singleton (key : α → κ) (l : List α) (c : α) :
    firstKeys key (l ++ [c])
      = if key c ∈ firstKeys key l then firstKeys key l
        else firstKeys key l ++ [key c] := by
  unfold firstKeys
  rw [List.foldl_append]
  rfl

theorem mem_foldl_keys (key : α → κ) (l : List α) (init : List κ) (x : κ) :
    x ∈ l.foldl (fun ks c => if key c ∈ ks then ks else ks ++ [key c]) init
      ↔ x ∈ init ∨ ∃ c ∈ l, key c = x := by
  induction l generalizing init with
  | nil => simp
  | cons c cs ih =>
    rw [List.foldl_cons, ih]
    constructor
    · rintro (h | h)
      · by_cases hc : key c ∈ init
        · simp only [hc, if_true] at h
          exact Or.inl h
        · simp only [hc, if_false, List.mem_append, List.mem_singleton] at h
          rcases h with h | h
          · exact Or.inl h
          · exact Or.inr ⟨c, by simp, h.symm⟩
      · rcases h with ⟨d, hd, hk⟩
        exact Or.inr ⟨d, by simp [hd], hk⟩
    · rintro (h | ⟨d, hd, hk⟩)
      · left
        by_cases hc : key c ∈ init <;> simp [hc, h]
      · rcases List.mem_cons.mp hd with rfl | hd
        · left
          by_cases hc : key d ∈ init <;> simp [hc, hk, hk ▸ hc]
        · exact Or.inr ⟨d, hd, hk⟩

theorem mem_firstKeys (key : α → κ) (l : List α) (x : κ) :
    x ∈ firstKeys key l ↔ ∃ c ∈ l, key c = x := by
  rw [firstKeys, mem_foldl_keys]
  simp

theorem nodup_foldl_keys (key : α → κ) (l : List α) (init : List κ)
    (h : init.Nodup) :
    (l.foldl (fun ks c => if key c ∈ ks then ks else ks ++ [key c]) init).Nodup := by
  induction l generalizing init with
  | nil => exact h
  | cons c cs ih =>
    rw [List.foldl_cons]
    apply ih
    by_cases hc : key c ∈ init
    · simpa [hc] using h
    · simp only [hc, if_false]
      refine List.Nodup.append h (List.nodup_singleton _) ?_
      intro x hx hxc
      rw [List.mem_singleton] at hxc
      exact hc (hxc ▸ hx)

theorem nodup_firstKeys (key : α → κ) (l : List α) :
    (firstKeys key l).Nodup :=
  nodup_foldl_keys key l [] List.nodup_nil

theorem gBuild_append (fresh : α → β) (add : β → α → β) (ms : List α) (c : α)
    (b : β) (h : gBuild fresh add ms = some b) :
    gBuild fresh add (ms ++ [c]) = some (add b c) := by
  cases ms with
  | nil => simp [gBuild] at h
  | cons c0 cs =>
    simp only [gBuild, Option.some.injEq] at h
    simp [gBuild, List.foldl_append, h]

/-- The keyed accumulation computes, for every key in first-occurrence order,
exactly the group built from that key's members in input order. -/
theorem gFold_spec (key : α → κ) (fresh : α → β) (add : β → α → β)
    (keyOf : β → κ) (hfresh : ∀ c, keyOf (fresh c) = key c)
    (hadd : ∀ b c, keyOf (add b c) = keyOf b) (l : List α) :
    (l.foldl (gStep key fresh add keyOf) []).map keyOf = firstKeys key l ∧
    ∀ b ∈ l.foldl (gStep key fresh add keyOf) [],
      gBuild fresh add (l.filter (fun c => key c = keyOf b)) = some b := by
  induction l using List.reverseRecOn with
  | nil => simp [firstKeys]
  | append_singleton l c ih =>
    obtain ⟨ihkeys, ihmem⟩ := ih
    rw [List.foldl_append, List.foldl_cons, List.foldl_nil]
    by_cases hk : key c ∈ firstKeys key l
    · have hany : (l.foldl (gStep key fresh add keyOf) []).any
          (fun b => keyOf b = key c) = true := by
        rw [← ihkeys] at hk
        rcases List.mem_map.mp hk with ⟨b, hb, hkb⟩
        exact List.any_eq_true.mpr ⟨b, hb, by simp [hkb]⟩
      constructor
      · rw [gStep, if_pos hany, firstKeys_append_singleton, if_pos hk, ← ihkeys,
          List.map_map]
        apply List.map_congr_left
        intro b _
        by_cases hb : keyOf b = key c <;> simp [Function.comp, hb, hadd]
      · intro b hb
        rw [gStep, if_pos hany] at hb
        rcases List.mem_map.mp hb with ⟨b0, hb0, hb0b⟩
        by_cases hkey : keyOf b0 = key c
        · rw [if_pos hkey] at hb0b
          subst hb0b
          rw [hadd, hkey]
          have hfilter : (l ++ [c]).filter (fun d => key d = key c)
              = l.filter (fun d => key d = key c) ++ [c] := by
            simp [List.filter_append]
          rw [hfilter]
          exact gBuild_append fresh add _ c b0 (by simpa [hkey] using ihmem b0 hb0)
        · rw [if_neg hkey] at hb0b
          subst hb0b
          have hfilter : (l ++ [c]).filter (fun d => key d = keyOf b0)
              = l.filter (fun d => key d = keyOf b0) := by
            simp [List.filter_append]
            intro h
            exact absurd h.symm hkey
          rw [hfilter]
          exact ihmem b0 hb0
    · have hany : (l.foldl (gStep key fresh add keyOf) []).any
          (fun b => keyOf b = key c) = false := by
        rw [List.any_eq_false]
        intro b hb
        simp only [decide_eq_true_eq]
        intro hkb
        exact hk (ihkeys ▸ List.mem_map.mpr ⟨b, hb, hkb⟩)
      have hnomem : ∀ d ∈ l, ¬ key d = key c := by
        intro d hd hdc
        exact hk ((mem_firstKeys key l (key c)).mpr ⟨d, hd, hdc⟩)
      constructor
      · rw [gStep, if_neg (by simp [hany]), firstKeys_append_singleton, if_neg hk,
          List.map_append, ihkeys]
        simp [hadd, hfresh]
      · intro b hb
        rw [gStep, if_neg (by simp [hany])] at hb
        rcases List.mem_append.mp hb with hb0 | hb0
        · have hne : keyOf b ≠ key c := by
            have h2 := List.any_eq_false.mp hany b hb0
            simpa using h2
          have hfilter : (l ++ [c]).filter (fun d => key d = keyOf b)
              = l.filter (fun d => key d = keyOf b) := by
            simp [List.filter_append]
            intro h
            exact absurd h.symm hne
          rw [hfilter]
          exact ihmem b hb0
        · have hbeq : b = add (fresh c) c := by simpa using hb0
          subst hbeq
          rw [hadd, hfresh]
          have hfilter : (l ++ [c]).filter (fun d => key d = key c) = [c] := by
            rw [List.filter_append]
            have h1 : l.filter (fun d => key d = key c) = [] := by
              rw [List.filter_eq_nil_iff]
              intro d hd
              simpa using hnomem d hd
            simp [h1]
          rw [hfilter]
          rfl

end Grouping

section BillLemmas

theorem addToBill_month (b : MonthlyBill) (c : AdminCommissionRow) :
    (addToBill b c).month = b.month := rfl

theorem emptyBill_month (k : Nat) : (emptyBill k).month = k := rfl

theorem addToGroup_affiliate (g : AffiliateGroup) (c : AdminCommissionRow) :
    (addToGroup g c).affiliate = g.affiliate := rfl

theorem emptyGroup_affiliate (a : User) : (emptyGroup a).affiliate = a := rfl

theorem groupStep_eq_gStep :
    groupStep = gStep (fun c => monthKey c.createdAt)
      (fun c => emptyBill (monthKey c.createdAt)) addToBill MonthlyBill.month := rfl

theorem updateGroups_eq_gStep :
    updateGroups = fun gs c => gStep (fun c : AdminCommissionRow => c.affiliate.id)
      (fun c => emptyGroup c.affiliate) addToGroup
      (fun g => g.affiliate.id) gs c := rfl

theorem monthKeys_eq_firstKeys (rows : List AdminCommissionRow) :
    monthKeys rows = firstKeys (fun c => monthKey c.createdAt) rows := rfl

theorem affiliateIds_eq_firstKeys (ms : List AdminCommissionRow) :
    affiliateIds ms = firstKeys (fun c : AdminCommissionRow => c.affiliate.id) ms := rfl

theorem foldl_addToBill_totalCommissions (ms : List AdminCommissionRow)
    (b : MonthlyBill) :
    (ms.foldl addToBill b).totalCommissions
      = b.totalCommissions + (ms.map AdminCommissionRow.commissionAmount).sum := by
  induction ms generalizing b with
  | nil => simp
  | cons c cs ih =>
    rw [List.foldl_cons, ih]
    simp [addToBill, add_assoc]

theorem foldl_addToBill_totalSales (ms : List AdminCommissionRow)
    (b : MonthlyBill) :
    (ms.foldl addToBill b).totalSales
      = b.totalSales + (ms.map AdminCommissionRow.saleAmount).sum := by
  induction ms generalizing b with
  | nil => simp
  | cons c cs ih =>
    rw [List.foldl_cons, ih]
    simp [addToBill, add_assoc]

theorem foldl_addToBill_transactionCount (ms : List AdminCommissionRow)
    (b : MonthlyBill) :
    (ms.foldl addToBill b).transactionCount = b.transactionCount + ms.length := by
  induction ms generalizing b with
  | nil => simp
  | cons c cs ih =>
    rw [List.foldl_cons, ih]
    simp [addToBill]
    omega

theorem foldl_addToBill_commissionIds (ms : List AdminCommissionRow)
    (b : MonthlyBill) :
    (ms.foldl addToBill b).commissionIds
      = b.commissionIds ++ ms.map AdminCommissionRow.id := by
  induction ms generalizing b with
  | nil => simp
  | cons c cs ih =>
    rw [List.foldl_cons, ih]
    simp [addToBill]

theorem foldl_addToBill_affiliates (ms : List AdminCommissionRow)
    (b : MonthlyBill) :
    (ms.foldl addToBill b).affiliates = ms.foldl updateGroups b.affiliates := by
  induction ms generalizing b with
  | nil => simp
  | cons c cs ih =>
    rw [List.foldl_cons, ih]
    rfl

theorem foldl_addToGroup_totalCommissions (ms : List AdminCommissionRow)
    (g : AffiliateGroup) :
    (ms.foldl addToGroup g).totalCommissions
      = g.totalCommissions + (ms.map AdminCommissionRow.commissionAmount).sum := by
  induction ms generalizing g with
  | nil => simp
  | cons c cs ih =>
    rw [List.foldl_cons, ih]
    simp [addToGroup, add_assoc]

theorem foldl_addToGroup_totalSales (ms : List AdminCommissionRow)
    (g : AffiliateGroup) :
    (ms.foldl addToGroup g).totalSales
      = g.totalSales + (ms.map AdminCommissionRow.saleAmount).sum := by
  induction ms generalizing g with
  | nil => simp
  | cons c cs ih =>
    rw [List.foldl_cons, ih]
    simp [addToGroup, add_assoc]

theorem foldl_addToGroup_transactionCount (ms : List AdminCommissionRow)
    (g : AffiliateGroup) :
    (ms.foldl addToGroup g).transactionCount = g.transactionCount + ms.length := by
  induction ms generalizing g with
  | nil => simp
  | cons c cs ih =>
    rw [List.foldl_cons, ih]
    simp [addToGroup]
    omega

theorem foldl_addToGroup_commissionIds (ms : List AdminCommissionRow)
    (g : AffiliateGroup) :
    (ms.foldl addToGroup g).commissionIds
      = g.commissionIds ++ ms.map AdminCommissionRow.id := by
  induction ms generalizing g with
  | nil => simp
  | cons c cs ih =>
    rw [List.foldl_cons, ih]
    simp [addToGroup]

/-- Everything a monthly bill built by the fold from its member rows
satisfies: totals are the member sums, the count their number, the id list
their ids in order, the affiliates the nested fold. -/
theorem gBuild_bill_props (ms : List AdminCommissionRow) (b : MonthlyBill)
    (h : gBuild (fun c => emptyBill (monthKey c.createdAt)) addToBill ms = some b) :
    b.totalCommissions = (ms.map AdminCommissionRow.commissionAmount).sum ∧
    b.totalSales = (ms.map AdminCommissionRow.saleAmount).sum ∧
    b.transactionCount = ms.length ∧
    b.commissionIds = ms.map AdminCommissionRow.id ∧
    b.affiliates = ms.foldl updateGroups [] := by
  cases ms with
  | nil => simp [gBuild] at h
  | cons c cs =>
    simp only [gBuild, Option.some.injEq] at h
    subst h
    refine ⟨?_, ?_, ?_, ?_, ?_⟩
    · rw [foldl_addToBill_totalCommissions]
      simp [addToBill, emptyBill]
    · rw [foldl_addToBill_totalSales]
      simp [addToBill, emptyBill]
    · rw [foldl_addToBill_transactionCount]
      simp [addToBill, emptyBill]
      omega
    · rw [foldl_addToBill_commissionIds]
      simp [addToBill, emptyBill]
    · rw [foldl_addToBill_affiliates]
      rfl

/-- Everything an affiliate sub-group built by the nested fold from its rows
satisfies. -/
theorem gBuild_group_props (ms : List AdminCommissionRow) (g : AffiliateGroup)
    (h : gBuild (fun c => emptyGroup c.affiliate) addToGroup ms = some g) :
    g.totalCommissions = (ms.map AdminCommissionRow.commissionAmount).sum ∧
    g.totalSales = (ms.map AdminCommissionRow.saleAmount).sum ∧
    g.transactionCount = ms.length ∧
    g.commissionIds = ms.map AdminCommissionRow.id := by
  cases ms with
  | nil => simp [gBuild] at h
  | cons c cs =>
    simp only [gBuild, Option.some.injEq] at h
    subst h
    refine ⟨?_, ?_, ?_, ?_⟩
    · rw [foldl_addToGroup_totalCommissions]
      simp [addToGroup, emptyGroup]
    · rw [foldl_addToGroup_totalSales]
      simp [addToGroup, emptyGroup]
    · rw [foldl_addToGroup_transactionCount]
      simp [addToGroup, emptyGroup]
      omega
    · rw [foldl_addToGroup_commissionIds]
      simp [addToGroup, emptyGroup]

end BillLemmas

section Lemmas

/-- Looking a user up after an id-preserving per-user update commutes with the
update. -/
theorem getUser_map_update (db : DB) (userId : String) (g : User → User)
    (hg : ∀ u, (g u).id = u.id) :
    getUser { db with users := db.users.map (fun u => if u.id = userId then g u else u) } userId
      = (getUser db userId).map (fun u => if u.id = userId then g u else u) := by
  have hpred : ((fun u : User => decide (u.id = userId)) ∘
      fun u => if u.id = userId then g u else u) = fun u : User => decide (u.id = userId) := by
    funext u
    by_cases h : u.id = userId
    · simp [Function.comp, h, hg]
    · simp [Function.comp, h]
  unfold getUser
  rw [List.find?_map, hpred]

/-- The first updated row an update-returning-by-id yields is the update of
the first matching row. -/
theorem filter_map_head (l : List User) (uid : String) (g : User → User)
    (hg : ∀ u, (g u).id = u.id) :
    ((l.map (fun u => if u.id = uid then g u else u)).filter
        (fun u => u.id = uid)).head?
      = (l.find? (fun u => u.id = uid)).map g := by
  induction l with
  | nil => rfl
  | cons u us ih =>
    by_cases h : u.id = uid
    · simp [List.find?_cons, h, hg, List.filter_cons]
    · simp [List.find?_cons, h, hg, List.filter_cons, ih]

theorem addCredits_fst (db : DB) (uid : String) (n : Int) :
    (addCredits db uid n).1
      = (getUser db uid).map (fun v => { v with credits := v.credits + n }) := by
  unfold addCredits getUser
  exact filter_map_head db.users uid _ (fun _ => rfl)

theorem addCredits_snd (db : DB) (uid : String) (n : Int) :
    (addCredits db uid n).2
      = { db with users := db.users.map (fun v =>
          if v.id = uid then { v with credits := v.credits + n } else v) } := rfl

/-- The webhook does not touch the commissions table when the session's user
does not exist. -/
theorem checkoutSessionCompleted_of_no_user (db : DB) (ev : CheckoutEvent)
    (now : DateYM) (hgu : getUser db ev.userId = none) :
    checkoutSessionCompleted db ev now = db := by
  unfold checkoutSessionCompleted
  rw [hgu]

/-- The webhook creates no commission row for a purchaser without a
referrer. -/
theorem checkoutSessionCompleted_commissions_of_unreferred (db : DB)
    (ev : CheckoutEvent) (now : DateYM) (u : User)
    (hgu : getUser db ev.userId = some u) (href : u.referredBy = none) :
    (checkoutSessionCompleted db ev now).commissions = db.commissions := by
  simp only [checkoutSessionCompleted, hgu, addCredits_fst, addCredits_snd,
    Option.map_some', href]
  split <;> rfl

/-- The webhook appends exactly one pending commission row for a referred
purchaser, with the amounts, month stamp and attribution the code computes. -/
theorem checkoutSessionCompleted_commissions_of_referred (db : DB)
    (ev : CheckoutEvent) (now : DateYM) (u : User) (aff : String)
    (hgu : getUser db ev.userId = some u) (href : u.referredBy = some aff) :
    (checkoutSessionCompleted db ev now).commissions = db.commissions ++
      [{ id := "row_" ++ toString db.nextId, affiliateUserId := aff,
         referredUserId := u.id, purchaseId := ev.sessionId,
         saleAmount := (ev.amountTotal : Rat) / 100,
         commissionAmount :=
           (jsRound ((ev.amountTotal : Rat) / 100 * (0.15 : Rat) * 100) : Rat) / 100,
         status := "pending", paymentMonth := some (formatMonth now),
         paidAt := none, createdAt := now }] := by
  simp only [checkoutSessionCompleted, hgu, addCredits_fst, addCredits_snd,
    Option.map_some', href]
  split <;> rfl

theorem getUser_mem (db : DB) (uid : String) (u : User)
    (h : getUser db uid = some u) : u ∈ db.users :=
  List.mem_of_find?_eq_some h

theorem getUser_id (db : DB) (uid : String) (u : User)
    (h : getUser db uid = some u) : u.id = uid := by
  have h2 := List.find?_some h
  simpa using h2

/-- A resolved referral attribution is the id of an existing user. -/
theorem registerReferredBy_mem (db : DB) (code : Option String) (a : String)
    (h : registerReferredBy db code = some a) : a ∈ db.users.map User.id := by
  cases code with
  | none => simp [registerReferredBy] at h
  | some cd =>
    simp only [registerReferredBy] at h
    cases hf : db.users.find? (fun u => u.affiliateCode = some cd) with
    | none => rw [hf] at h; simp at h
    | some affU =>
      rw [hf] at h
      have ha : a = affU.id := by simpa using h.symm
      subst ha
      exact List.mem_map_of_mem User.id (List.mem_of_find?_eq_some hf)

/-- Rows referenced by a `markCommissionsPaid` call end up paid with the
supplied month and the fresh timestamp. -/
theorem markCommissionsPaid_marked (db : DB) (ids : List String) (pm : String)
    (t : Nat) (c : AffiliateCommission)
    (hc : c ∈ (markCommissionsPaid db ids pm t).commissions)
    (hid : c.id ∈ ids) :
    c.status = "paid" ∧ c.paymentMonth = some pm ∧ c.paidAt = some t := by
  unfold markCommissionsPaid at hc
  simp only [List.mem_map] at hc
  obtain ⟨c0, _, hc0⟩ := hc
  by_cases h0 : c0.id ∈ ids
  · rw [if_pos h0] at hc0
    subst hc0
    exact ⟨rfl, rfl, rfl⟩
  · rw [if_neg h0] at hc0
    subst hc0
    exact absurd hid h0

/-- Rows outside the id set of a `markCommissionsPaid` call are untouched. -/
theorem markCommissionsPaid_untouched (db : DB) (ids : List String)
    (pm : String) (t : Nat) (c : AffiliateCommission) (hc : c ∈ db.commissions)
    (hid : c.id ∉ ids) :
    c ∈ (markCommissionsPaid db ids pm t).commissions := by
  unfold markCommissionsPaid
  simp only [List.mem_map]
  exact ⟨c, hc, by rw [if_neg hid]⟩

/-- Rows inside the id set land as their paid update. -/
theorem markCommissionsPaid_image (db : DB) (ids : List String)
    (pm : String) (t : Nat) (c : AffiliateCommission) (hc : c ∈ db.commissions)
    (hid : c.id ∈ ids) :
    { c with status := "paid", paymentMonth := some pm, paidAt := some t }
      ∈ (markCommissionsPaid db ids pm t).commissions := by
  unfold markCommissionsPaid
  simp only [List.mem_map]
  exact ⟨c, hc, by rw [if_pos hid]⟩

theorem order_filter_map_head (l : List Order) (oid : String) (g : Order → Order)
    (hg : ∀ o, (g o).id = o.id) :
    ((l.map (fun o => if o.id = oid then g o else o)).filter
        (fun o => o.id = oid)).head?
      = (l.find? (fun o => o.id = oid)).map g := by
  induction l with
  | nil => rfl
  | cons o os ih =>
    by_cases h : o.id = oid
    · simp [List.find?_cons, h, hg, List.filter_cons]
    · simp [List.find?_cons, h, hg, List.filter_cons, ih]

theorem fulfillOrder_fst (db : DB) (oid : String) (dt : Option String)
    (url : String) (n : Option String) (st : String) (t : Nat) :
    (fulfillOrder db oid dt url n st t).1
      = (db.orders.find? (fun o => o.id = oid)).map (fun o =>
          { o with csvUrl := some url, deliveryType := dt, notes := n,
                   status := st, completedAt := some t }) := by
  unfold fulfillOrder
  exact order_filter_map_head db.orders oid _ (fun _ => rfl)

theorem fulfillOrder_snd (db : DB) (oid : String) (dt : Option String)
    (url : String) (n : Option String) (st : String) (t : Nat) :
    (fulfillOrder db oid dt url n st t).2
      = { db with orders := db.orders.map (fun o =>
          if o.id = oid then
            { o with csvUrl := some url, deliveryType := dt, notes := n,
                     status := st, completedAt := some t }
          else o) } := rfl

/-- With a non-empty CSV URL the route's database effect is exactly the
storage update, whether or not a row matched. -/
theorem fulfillOrderRoute_snd (db : DB) (oid : String) (dt : Option String)
    (url : String) (n : Option String) (t : Nat) (hurl : ¬ url = "") :
    (fulfillOrderRoute db oid dt url n t).2
      = (fulfillOrder db oid dt url n "completed" t).2 := by
  simp only [fulfillOrderRoute, if_neg hurl]
  split <;> rfl

/-- An unknown order id leaves the database untouched and falls into the
catch-all (the handler crashes reading the missing row). -/
theorem fulfillOrderRoute_of_unknown (db : DB) (oid : String)
    (dt : Option String) (url : String) (n : Option String) (t : Nat)
    (hurl : ¬ url = "") (hno : ∀ o ∈ db.orders, o.id ≠ oid) :
    fulfillOrderRoute db oid dt url n t = (.serverError, db) := by
  have hfind : db.orders.find? (fun o => o.id = oid) = none :=
    List.find?_eq_none.mpr (fun o ho => by simpa using hno o ho)
  have hmap : db.orders.map (fun o =>
      if o.id = oid then
        { o with csvUrl := some url, deliveryType := dt, notes := n,
                 status := "completed", completedAt := some t }
      else o) = db.orders := by
    have h1 : db.orders.map (fun o =>
        if o.id = oid then
          { o with csvUrl := some url, deliveryType := dt, notes := n,
                   status := "completed", completedAt := some t }
        else o) = db.orders.map id :=
      List.map_congr_left (fun o ho => if_neg (hno o ho))
    rw [h1, List.map_id]
  simp only [fulfillOrderRoute, if_neg hurl, fulfillOrder_fst, hfind,
    Option.map_none']
  rw [fulfillOrder_snd, hmap]

/-- A known order id yields a 200 with the overwritten row, the database
holding the mapped orders, and the row still findable by id. -/
theorem fulfillOrderRoute_success (db : DB) (oid : String) (dt : Option String)
    (url : String) (n : Option String) (t : Nat) (hurl : ¬ url = "")
    (hex : ∃ o ∈ db.orders, o.id = oid) :
    ∃ o2, (fulfillOrderRoute db oid dt url n t).1 = .ok o2 ∧
      o2.id = oid ∧ o2.status = "completed" ∧ o2.csvUrl = some url ∧
      o2.deliveryType = dt ∧ o2.notes = n ∧ o2.completedAt = some t ∧
      (fulfillOrderRoute db oid dt url n t).2
        = { db with orders := db.orders.map (fun o =>
            if o.id = oid then
              { o with csvUrl := some url, deliveryType := dt, notes := n,
                       status := "completed", completedAt := some t }
            else o) } ∧
      ∃ o3 ∈ (fulfillOrderRoute db oid dt url n t).2.orders, o3.id = oid := by
  obtain ⟨o, ho, hoid⟩ := hex
  have hsome : (db.orders.find? (fun o => o.id = oid)).isSome := by
    rw [List.find?_isSome]
    exact ⟨o, ho, by simp [hoid]⟩
  obtain ⟨o0, ho0⟩ := Option.isSome_iff_exists.mp hsome
  have ho0id : o0.id = oid := by
    have h2 := List.find?_some ho0
    simpa using h2
  have ho0mem : o0 ∈ db.orders := List.mem_of_find?_eq_some ho0
  have hfst : (fulfillOrderRoute db oid dt url n t).1
      = .ok { o0 with csvUrl := some url, deliveryType := dt, notes := n,
                      status := "completed", completedAt := some t } := by
    simp only [fulfillOrderRoute, if_neg hurl, fulfillOrder_fst, ho0,
      Option.map_some']
  have hsnd : (fulfillOrderRoute db oid dt url n t).2
      = { db with orders := db.orders.map (fun o =>
          if o.id = oid then
            { o with csvUrl := some url, deliveryType := dt, notes := n,
                     status := "completed", completedAt := some t }
          else o) } := by
    rw [fulfillOrderRoute_snd db oid dt url n t hurl, fulfillOrder_snd]
  refine ⟨_, hfst, ho0id, rfl, rfl, rfl, rfl, rfl, hsnd, ?_⟩
  refine ⟨{ o0 with csvUrl := some url, deliveryType := dt, notes := n,
                    status := "completed", completedAt := some t }, ?_, ho0id⟩
  rw [hsnd]
  have hmem := List.mem_map_of_mem (fun o =>
    if o.id = oid then
      { o with csvUrl := some url, deliveryType := dt, notes := n,
               status := "completed", completedAt := some t }
    else o) ho0mem
  simpa [ho0id] using hmem

end Lemmas

/-- Claim C1: for an existing user, `POST /api/orders` fails with
InsufficientCredits exactly when the requested debit exceeds the balance; on
failure the database is unchanged (balance intact, no Order row); on success
the balance drops by exactly `creditsUsed` and exactly one Order row is
appended. -/
theorem claim1_createOrder_credit_ledger (db : DB) (userId apolloUrl : String)
    (creditsUsed : Int) (estimatedLeads : Option Int) (deliveryEmail : String)
    (u : User) (hu : getUser db userId = some u) :
    ((createOrderRoute db userId apolloUrl creditsUsed estimatedLeads deliveryEmail).1
        = .insufficientCredits ↔ u.credits < creditsUsed) ∧
    (u.credits < creditsUsed →
      (createOrderRoute db userId apolloUrl creditsUsed estimatedLeads deliveryEmail).2 = db) ∧
    (¬ u.credits < creditsUsed →
      (getUser (createOrderRoute db userId apolloUrl creditsUsed estimatedLeads deliveryEmail).2
          userId).map User.credits = some (u.credits - creditsUsed) ∧
      ∃ o, (createOrderRoute db userId apolloUrl creditsUsed estimatedLeads deliveryEmail).2.orders
            = db.orders ++ [o] ∧
        (createOrderRoute db userId apolloUrl creditsUsed estimatedLeads deliveryEmail).1
            = .created o) := by
  by_cases hc : u.credits < creditsUsed
  · refine ⟨?_, ?_, ?_⟩
    · simp [createOrderRoute, hu, hc]
    · intro _
      simp [createOrderRoute, hu, hc]
    · intro h; exact absurd hc h
  · refine ⟨?_, ?_, ?_⟩
    · constructor
      · intro h
        exfalso
        simp [createOrderRoute, hu, hc, createOrder, genId] at h
      · intro h; exact absurd h hc
    · intro h; exact absurd h hc
    · intro _
      constructor
      · have hid : u.id = userId := by
          have h2 := List.find?_some hu
          simpa using h2
        have hmap := getUser_map_update db userId
          (fun v => { v with credits := v.credits - creditsUsed }) (fun _ => rfl)
        have husers :
            (createOrderRoute db userId apolloUrl creditsUsed estimatedLeads deliveryEmail).2.users
              = db.users.map
                  (fun v => if v.id = userId then { v with credits := v.credits - creditsUsed } else v) := by
          simp [createOrderRoute, hu, hc, createOrder, genId, deductCredits]
        have h3 :
            getUser (createOrderRoute db userId apolloUrl creditsUsed estimatedLeads deliveryEmail).2 userId
              = (getUser db userId).map
                  (fun v => if v.id = userId then { v with credits := v.credits - creditsUsed } else v) := by
          rw [← hmap]
          unfold getUser
          rw [husers]
        rw [h3, hu]
        simp [hid]
      · refine ⟨(createOrder (deductCredits db userId creditsUsed).2 userId apolloUrl
          creditsUsed estimatedLeads deliveryEmail).1, ?_, ?_⟩
        · simp [createOrderRoute, hu, hc, createOrder, genId, deductCredits]
        · simp [createOrderRoute, hu, hc, createOrder, genId, deductCredits]

/-- Claim C4: `getMonthlyBills` partitions the pending commissions by the
calendar month of their creation date: the bills carry pairwise-distinct
months, exactly the months occurring among the rows; each bill's totals are
the sums of its members' `commissionAmount` and `saleAmount`, its
`transactionCount` their number, its `commissionIds` their ids; each nested
affiliate sub-group carries the same data restricted to that affiliate; the
bills are ordered most-recent-month first; and rows spread over exactly two
distinct months yield exactly two bills. -/
theorem claim4_getMonthlyBills_grouping (rows : List AdminCommissionRow) :
    ((getMonthlyBills rows).map MonthlyBill.month).Nodup ∧
    (∀ k : Nat, k ∈ (getMonthlyBills rows).map MonthlyBill.month ↔
       ∃ c ∈ rows, monthKey c.createdAt = k) ∧
    (∀ b ∈ getMonthlyBills rows,
      b.totalCommissions
          = ((rowsInMonth rows b.month).map AdminCommissionRow.commissionAmount).sum ∧
      b.totalSales
          = ((rowsInMonth rows b.month).map AdminCommissionRow.saleAmount).sum ∧
      b.transactionCount = (rowsInMonth rows b.month).length ∧
      b.commissionIds = (rowsInMonth rows b.month).map AdminCommissionRow.id ∧
      (b.affiliates.map (fun g => g.affiliate.id)).Nodup ∧
      (∀ aid : String, aid ∈ b.affiliates.map (fun g => g.affiliate.id) ↔
         ∃ c ∈ rowsInMonth rows b.month, c.affiliate.id = aid) ∧
      ∀ g ∈ b.affiliates,
        g.totalCommissions
            = ((rowsOfAffiliate (rowsInMonth rows b.month) g.affiliate.id).map
                AdminCommissionRow.commissionAmount).sum ∧
        g.totalSales
            = ((rowsOfAffiliate (rowsInMonth rows b.month) g.affiliate.id).map
                AdminCommissionRow.saleAmount).sum ∧
        g.transactionCount
            = (rowsOfAffiliate (rowsInMonth rows b.month) g.affiliate.id).length ∧
        g.commissionIds
            = (rowsOfAffiliate (rowsInMonth rows b.month) g.affiliate.id).map
                AdminCommissionRow.id) ∧
    List.Sorted monthGE (getMonthlyBills rows) ∧
    (∀ k1 k2 : Nat, k1 ≠ k2 →
      (∀ c ∈ rows, monthKey c.createdAt = k1 ∨ monthKey c.createdAt = k2) →
      (∃ c ∈ rows, monthKey c.createdAt = k1) →
      (∃ c ∈ rows, monthKey c.createdAt = k2) →
      (getMonthlyBills rows).length = 2) := by
  have hspec := gFold_spec (fun c : AdminCommissionRow => monthKey c.createdAt)
    (fun c : AdminCommissionRow => emptyBill (monthKey c.createdAt)) addToBill
    MonthlyBill.month
    (fun c => emptyBill_month (monthKey c.createdAt)) addToBill_month rows
  obtain ⟨hkeys, hmem⟩ := hspec
  have hperm : List.Perm (getMonthlyBills rows)
      (rows.foldl (gStep (fun c : AdminCommissionRow => monthKey c.createdAt)
          (fun c : AdminCommissionRow => emptyBill (monthKey c.createdAt)) addToBill
          MonthlyBill.month) []) :=
    List.perm_insertionSort monthGE _
  have hpermmap := hperm.map MonthlyBill.month
  have hnodup : ((getMonthlyBills rows).map MonthlyBill.month).Nodup := by
    rw [hpermmap.nodup_iff, hkeys]
    exact nodup_firstKeys _ rows
  have hmemiff : ∀ k : Nat, k ∈ (getMonthlyBills rows).map MonthlyBill.month ↔
      ∃ c ∈ rows, monthKey c.createdAt = k := by
    intro k
    rw [hpermmap.mem_iff, hkeys, mem_firstKeys]
  refine ⟨hnodup, hmemiff, ?_, ?_, ?_⟩
  · intro b hb
    have hbL := hperm.mem_iff.mp hb
    have hbuild := hmem b hbL
    have hprops := gBuild_bill_props _ b hbuild
    obtain ⟨h1, h2, h3, h4, h5⟩ := hprops
    have haff := gFold_spec (fun c : AdminCommissionRow => c.affiliate.id)
      (fun c => emptyGroup c.affiliate) addToGroup (fun g => g.affiliate.id)
      (fun c => congrArg User.id (emptyGroup_affiliate c.affiliate))
      (fun g c => congrArg User.id (addToGroup_affiliate g c))
      (rowsInMonth rows b.month)
    refine ⟨h1, h2, h3, h4, ?_, ?_, ?_⟩
    · rw [h5]
      have h6 : (((rowsInMonth rows b.month).foldl
          (gStep (fun c : AdminCommissionRow => c.affiliate.id)
            (fun c => emptyGroup c.affiliate) addToGroup
            (fun g => g.affiliate.id)) []).map (fun g => g.affiliate.id)).Nodup := by
        rw [haff.1]
        exact nodup_firstKeys _ _
      exact h6
    · rw [h5]
      have h6 : ∀ aid : String, aid ∈ ((rowsInMonth rows b.month).foldl
          (gStep (fun c : AdminCommissionRow => c.affiliate.id)
            (fun c => emptyGroup c.affiliate) addToGroup
            (fun g => g.affiliate.id)) []).map (fun g => g.affiliate.id) ↔
          ∃ c ∈ rowsInMonth rows b.month, c.affiliate.id = aid := by
        intro aid
        rw [haff.1, mem_firstKeys]
      exact h6
    · intro g hg
      rw [h5] at hg
      have hg2 : g ∈ (rowsInMonth rows b.month).foldl
          (gStep (fun c : AdminCommissionRow => c.affiliate.id)
            (fun c => emptyGroup c.affiliate) addToGroup
            (fun g => g.affiliate.id)) [] := hg
      have hbuildg := haff.2 g hg2
      exact gBuild_group_props _ g hbuildg
  · exact List.sorted_insertionSort monthGE _
  · intro k1 k2 hne hall hex1 hex2
    have hclosed : ∀ k : Nat, k ∈ (getMonthlyBills rows).map MonthlyBill.month
        ↔ k ∈ [k1, k2] := by
      intro k
      rw [hmemiff k]
      constructor
      · rintro ⟨c, hc, hck⟩
        rcases hall c hc with h | h <;> simp [← hck, h]
      · intro hk
        rcases List.mem_cons.mp hk with rfl | hk
        · exact hex1
        · rcases List.mem_singleton.mp hk with rfl
          exact hex2
    have hpermk : List.Perm ((getMonthlyBills rows).map MonthlyBill.month) [k1, k2] := by
      rw [List.perm_ext_iff_of_nodup hnodup (by simp [hne])]
      exact hclosed
    have := hpermk.length_eq
    simpa using this

/-- Witness for claim C4 at a concrete input: three pending commissions
created in exactly two distinct months (January and February 2025) group
into exactly two bills with pairwise-distinct months. -/
theorem claim4_getMonthlyBills_grouping_witness :
    (getMonthlyBills rowsC4).length = 2 ∧
    ((getMonthlyBills rowsC4).map MonthlyBill.month).Nodup := by
  have h := claim4_getMonthlyBills_grouping rowsC4
  refine ⟨?_, h.1⟩
  exact h.2.2.2.2 202501 202502 (by decide) (by decide) (by decide) (by decide)

/-- Claim C2 (code bug witness): delivering the same
`checkout.session.completed` event twice adds the purchased credits twice.
The webhook adds credits before the swallowed duplicate-purchase-row check,
so the 5000-credit purchase `cs_1` leaves user `u1` at 10000 credits after a
redelivery, where the claim demands 5000. -/
theorem claim2_webhook_double_delivery_double_credits :
    (getUser (checkoutSessionCompleted dbC2 evC2 dC2) "u1").map User.credits
        = some 5000 ∧
    (getUser (checkoutSessionCompleted (checkoutSessionCompleted dbC2 evC2 dC2)
        evC2 dC2) "u1").map User.credits = some 10000 := by
  constructor <;> rfl

/-- Claim C3: every commission row the webhook appends has
`commissionAmount = round(saleAmount * 0.15, 2)` (exact rational arithmetic;
`Math.round` is halves-up). -/
theorem claim3_commission_is_rounded_15_percent (db : DB) (ev : CheckoutEvent)
    (now : DateYM) (c : AffiliateCommission)
    (hc : c ∈ (checkoutSessionCompleted db ev now).commissions)
    (hnew : c ∉ db.commissions) :
    c.commissionAmount = roundTo2 (c.saleAmount * (0.15 : Rat)) := by
  cases hgu : getUser db ev.userId with
  | none =>
    rw [checkoutSessionCompleted_of_no_user db ev now hgu] at hc
    exact absurd hc hnew
  | some u =>
    cases href : u.referredBy with
    | none =>
      have h := checkoutSessionCompleted_commissions_of_unreferred db ev now u hgu href
      rw [h] at hc
      exact absurd hc hnew
    | some aff =>
      have h := checkoutSessionCompleted_commissions_of_referred db ev now u aff hgu href
      rw [h] at hc
      rcases List.mem_append.mp hc with hold | hnewmem
      · exact absurd hold hnew
      · have hceq := List.mem_singleton.mp hnewmem
        subst hceq
        rfl

/-- Witness for claim C3: the $19.00 purchase by the referred user `u2`
yields a commission row whose amount is exactly 2.85. -/
theorem claim3_commission_is_rounded_15_percent_witness :
    ∃ c : AffiliateCommission,
      c ∈ (checkoutSessionCompleted dbC3 evC3 dC2).commissions ∧
      c ∉ dbC3.commissions ∧
      c.commissionAmount = roundTo2 (c.saleAmount * (0.15 : Rat)) ∧
      c.saleAmount = 19 ∧ c.commissionAmount = 57 / 20 := by
  have hgu : getUser dbC3 evC3.userId = some userC3 := by decide
  have href : userC3.referredBy = some "aff1" := rfl
  have h := checkoutSessionCompleted_commissions_of_referred dbC3 evC3 dC2
    userC3 "aff1" hgu href
  have hmem : ({ id := "row_" ++ toString dbC3.nextId, affiliateUserId := "aff1",
                 referredUserId := userC3.id, purchaseId := evC3.sessionId,
                 saleAmount := (evC3.amountTotal : Rat) / 100,
                 commissionAmount :=
                   (jsRound ((evC3.amountTotal : Rat) / 100 * (0.15 : Rat) * 100) : Rat) / 100,
                 status := "pending", paymentMonth := some (formatMonth dC2),
                 paidAt := none, createdAt := dC2 } : AffiliateCommission)
      ∈ (checkoutSessionCompleted dbC3 evC3 dC2).commissions := by
    rw [h]
    exact List.mem_append_right _ (List.mem_singleton_self _)
  refine ⟨_, hmem, List.not_mem_nil _, ?_, ?_, ?_⟩
  · exact claim3_commission_is_rounded_15_percent dbC3 evC3 dC2 _ hmem
      (List.not_mem_nil _)
  · show (evC3.amountTotal : Rat) / 100 = 19
    norm_num [evC3]
  · show (jsRound ((evC3.amountTotal : Rat) / 100 * (0.15 : Rat) * 100) : Rat) / 100
        = 57 / 20
    rw [show ((evC3.amountTotal : Rat) / 100 * (0.15 : Rat) * 100) = 285 by
      norm_num [evC3]]
    rw [show jsRound 285 = 285 by norm_num [jsRound]]
    norm_num

/-- Claim C5: a commission is created on purchase completion exactly for a
referred purchaser, carrying `affiliateUserId = referredBy` and
`referredUserId` = the purchaser; with registration the only writer of
`referredBy` (it resolves the code to an existing user's id and the new id is
fresh), no commission can be a self-referral. -/
theorem claim5_commission_only_for_referred (db : DB) (ev : CheckoutEvent)
    (now : DateYM) :
    (getUser db ev.userId = none →
      (checkoutSessionCompleted db ev now).commissions = db.commissions) ∧
    (∀ u, getUser db ev.userId = some u → u.referredBy = none →
      (checkoutSessionCompleted db ev now).commissions = db.commissions) ∧
    (∀ u aff, getUser db ev.userId = some u → u.referredBy = some aff →
      ∃ c, (checkoutSessionCompleted db ev now).commissions
          = db.commissions ++ [c] ∧
        c.affiliateUserId = aff ∧ c.referredUserId = u.id) ∧
    ((∀ v ∈ db.users, v.referredBy ≠ some v.id) →
      ∀ c ∈ (checkoutSessionCompleted db ev now).commissions,
        c ∉ db.commissions → c.affiliateUserId ≠ c.referredUserId) ∧
    (∀ email pw fn code freshId, freshId ∉ db.users.map User.id →
      (∀ v ∈ db.users, v.referredBy ≠ some v.id) →
      ∀ v ∈ (registerUser db email pw fn code freshId).2.users,
        v.referredBy ≠ some v.id) := by
  refine ⟨?_, ?_, ?_, ?_, ?_⟩
  · intro hgu
    rw [checkoutSessionCompleted_of_no_user db ev now hgu]
  · intro u hgu href
    exact checkoutSessionCompleted_commissions_of_unreferred db ev now u hgu href
  · intro u aff hgu href
    exact ⟨_, checkoutSessionCompleted_commissions_of_referred db ev now u aff
      hgu href, rfl, rfl⟩
  · intro hinv c hc hnew
    cases hgu : getUser db ev.userId with
    | none =>
      rw [checkoutSessionCompleted_of_no_user db ev now hgu] at hc
      exact absurd hc hnew
    | some u =>
      cases href : u.referredBy with
      | none =>
        rw [checkoutSessionCompleted_commissions_of_unreferred db ev now u hgu
          href] at hc
        exact absurd hc hnew
      | some aff =>
        rw [checkoutSessionCompleted_commissions_of_referred db ev now u aff hgu
          href] at hc
        rcases List.mem_append.mp hc with hold | hnewmem
        · exact absurd hold hnew
        · have hceq := List.mem_singleton.mp hnewmem
          subst hceq
          show aff ≠ u.id
          intro haff
          exact hinv u (getUser_mem db ev.userId u hgu) (haff ▸ href)
  · intro email pw fn code freshId hfresh hinv v hv
    unfold registerUser at hv
    split at hv
    · exact hinv v hv
    · split at hv
      · exact hinv v hv
      · simp only at hv
        rcases List.mem_append.mp hv with hold | hnewmem
        · exact hinv v hold
        · have hveq := List.mem_singleton.mp hnewmem
          subst hveq
          show registerReferredBy db code ≠ some freshId
          intro heq
          exact hfresh (registerReferredBy_mem db code freshId heq)

/-- Witness for claim C5: registering `u9` through affiliate code `QWERTY`
attributes `referredBy = aff1`, and their $19.00 purchase creates exactly one
commission for `aff1`, which is not a self-referral. -/
theorem claim5_commission_only_for_referred_witness :
    ∃ c : AffiliateCommission,
      (checkoutSessionCompleted (registerUser dbC5 "b@x.y" "pw" "B"
          (some "QWERTY") "u9").2 evC5 dC2).commissions = [] ++ [c] ∧
      c.affiliateUserId = "aff1" ∧ c.referredUserId = "u9" ∧
      c.affiliateUserId ≠ c.referredUserId := by
  have h := claim5_commission_only_for_referred
    (registerUser dbC5 "b@x.y" "pw" "B" (some "QWERTY") "u9").2 evC5 dC2
  have hgu : getUser (registerUser dbC5 "b@x.y" "pw" "B" (some "QWERTY") "u9").2
      evC5.userId
      = some { id := "u9", email := "b@x.y", credits := 0,
               affiliateCode := none, referredBy := some "aff1" } := by decide
  obtain ⟨c, hc, haff, href⟩ := h.2.2.1 _ "aff1" hgu rfl
  have hc2 : (checkoutSessionCompleted (registerUser dbC5 "b@x.y" "pw" "B"
      (some "QWERTY") "u9").2 evC5 dC2).commissions = [] ++ [c] := hc
  have hcmem : c ∈ (checkoutSessionCompleted (registerUser dbC5 "b@x.y" "pw" "B"
      (some "QWERTY") "u9").2 evC5 dC2).commissions := by
    rw [hc2]
    exact List.mem_append_right _ (List.mem_singleton_self _)
  have hninv : ∀ v ∈ (registerUser dbC5 "b@x.y" "pw" "B" (some "QWERTY")
      "u9").2.users, v.referredBy ≠ some v.id := by decide
  have hnotin : c ∉ (registerUser dbC5 "b@x.y" "pw" "B" (some "QWERTY")
      "u9").2.commissions := List.not_mem_nil c
  exact ⟨c, hc2, haff, href, h.2.2.2.1 hninv c hcmem hnotin⟩

/-- Counterexample to claim C6: the webhook's commission creation sets
`paymentMonth` to the current month while the row's status is still
`pending` — the row created for the referred purchase `cs_2` has
`status = "pending"` and `paymentMonth = some "2025-06"`, not null. -/
theorem claim6_counterexample_pending_has_paymentMonth :
    ∃ c ∈ (checkoutSessionCompleted dbC3 evC3 dC2).commissions,
      c.status = "pending" ∧ c.paymentMonth ≠ none := by
  have hgu : getUser dbC3 evC3.userId = some userC3 := by decide
  have h := checkoutSessionCompleted_commissions_of_referred dbC3 evC3 dC2
    userC3 "aff1" hgu rfl
  refine ⟨_, by rw [h]; exact List.mem_append_right _ (List.mem_singleton_self _),
    rfl, by simp⟩

/-- Claim C6 as amended: `paidAt` is null while a row is pending as created,
but commission creation sets `paymentMonth` to the month of creation (not
null); the bulk mark-paid operation sets status, paymentMonth and paidAt
together and leaves rows outside its id set untouched. -/
theorem claim6_amended_payment_month_lifecycle (db : DB) (ev : CheckoutEvent)
    (now : DateYM) :
    (∀ c ∈ (checkoutSessionCompleted db ev now).commissions,
      c ∉ db.commissions →
        c.status = "pending" ∧ c.paymentMonth = some (formatMonth now) ∧
        c.paidAt = none) ∧
    (∀ ids pm t, ∀ c ∈ db.commissions,
      (c.id ∈ ids →
        { c with status := "paid", paymentMonth := some pm, paidAt := some t }
          ∈ (markCommissionsPaid db ids pm t).commissions) ∧
      (c.id ∉ ids → c ∈ (markCommissionsPaid db ids pm t).commissions)) := by
  constructor
  · intro c hc hnew
    cases hgu : getUser db ev.userId with
    | none =>
      rw [checkoutSessionCompleted_of_no_user db ev now hgu] at hc
      exact absurd hc hnew
    | some u =>
      cases href : u.referredBy with
      | none =>
        rw [checkoutSessionCompleted_commissions_of_unreferred db ev now u hgu
          href] at hc
        exact absurd hc hnew
      | some aff =>
        rw [checkoutSessionCompleted_commissions_of_referred db ev now u aff hgu
          href] at hc
        rcases List.mem_append.mp hc with hold | hnewmem
        · exact absurd hold hnew
        · have hceq := List.mem_singleton.mp hnewmem
          subst hceq
          exact ⟨rfl, rfl, rfl⟩
  · intro ids pm t c hc
    exact ⟨fun hid => markCommissionsPaid_image db ids pm t c hc hid,
           fun hid => markCommissionsPaid_untouched db ids pm t c hc hid⟩

/-- Witness for the amended claim C6: the commission created for purchase
`cs_2` is pending with `paidAt` null and `paymentMonth = "2025-06"`; marking
`k1` paid stamps all three fields together. -/
theorem claim6_amended_payment_month_lifecycle_witness :
    (∀ c ∈ (checkoutSessionCompleted dbC3 evC3 dC2).commissions,
      c ∉ dbC3.commissions →
        c.status = "pending" ∧ c.paymentMonth = some (formatMonth dC2) ∧
        c.paidAt = none) ∧
    ({ cRowC9 with
         status := "paid", paymentMonth := some "2025-06", paidAt := some 7 }
      ∈ (markCommissionsPaid dbC9 ["k1"] "2025-06" 7).commissions) := by
  constructor
  · exact (claim6_amended_payment_month_lifecycle dbC3 evC3 dC2).1
  · exact ((claim6_amended_payment_month_lifecycle dbC9 evC3 dC2).2 ["k1"]
      "2025-06" 7 cRowC9 (List.mem_singleton_self _)).1 (by decide)

/-- Counterexample to claim C7: fulfilling an unknown order id does not fail
with NotFound (404) — the handler crashes reading the missing row and the
catch-all responds 500 (though no order is modified). -/
theorem claim7_counterexample_unknown_order_is_500 :
    (fulfillOrderRoute dbC7 "missing" (some "csv_file")
        "https://sheets.example/x" none 0).1 = .serverError ∧
    ((fulfillOrderRoute dbC7 "missing" (some "csv_file")
        "https://sheets.example/x" none 0).1).statusCode = 500 ∧
    ((fulfillOrderRoute dbC7 "missing" (some "csv_file")
        "https://sheets.example/x" none 0).1).statusCode ≠ 404 ∧
    (fulfillOrderRoute dbC7 "missing" (some "csv_file")
        "https://sheets.example/x" none 0).2 = dbC7 := by
  refine ⟨rfl, rfl, by decide, rfl⟩

/-- Claim C7 as amended: an empty `csvUrl` is rejected with 400 before any
storage call; an unknown order id leaves every order untouched but surfaces
as a generic 500 (not NotFound); on success the order's status becomes
`completed` with `csvUrl`, `deliveryType`, `notes` stored and `completedAt`
stamped, and orders with other ids are untouched. -/
theorem claim7_amended_fulfillOrder (db : DB) (oid : String)
    (dt : Option String) (url : String) (n : Option String) (t : Nat) :
    (url = "" → fulfillOrderRoute db oid dt url n t = (.badRequest, db)) ∧
    (url ≠ "" → (∀ o ∈ db.orders, o.id ≠ oid) →
      fulfillOrderRoute db oid dt url n t = (.serverError, db)) ∧
    (url ≠ "" → (∃ o ∈ db.orders, o.id = oid) →
      ∃ o2, (fulfillOrderRoute db oid dt url n t).1 = .ok o2 ∧ o2.id = oid ∧
        o2.status = "completed" ∧ o2.csvUrl = some url ∧
        o2.deliveryType = dt ∧ o2.notes = n ∧ o2.completedAt = some t) ∧
    (url ≠ "" → ∀ x ∈ db.orders, x.id ≠ oid →
      x ∈ (fulfillOrderRoute db oid dt url n t).2.orders) := by
  refine ⟨?_, ?_, ?_, ?_⟩
  · intro hurl
    simp [fulfillOrderRoute, hurl]
  · intro hurl hno
    exact fulfillOrderRoute_of_unknown db oid dt url n t hurl hno
  · intro hurl hex
    obtain ⟨o2, h1, h2, h3, h4, h5, h6, h7, _, _⟩ :=
      fulfillOrderRoute_success db oid dt url n t hurl hex
    exact ⟨o2, h1, h2, h3, h4, h5, h6, h7⟩
  · intro hurl x hx hxne
    rw [fulfillOrderRoute_snd db oid dt url n t hurl, fulfillOrder_snd]
    have hmem := List.mem_map_of_mem (fun o =>
      if o.id = oid then
        { o with csvUrl := some url, deliveryType := dt, notes := n,
                 status := "completed", completedAt := some t }
      else o) hx
    simpa [hxne] using hmem

/-- Witness for the amended claim C7: the pending order `o1` is fulfilled
with a sheet link (status becomes completed, fields stored), while an empty
CSV URL is rejected up front. -/
theorem claim7_amended_fulfillOrder_witness :
    (fulfillOrderRoute dbC10 "o1" (some "google_sheets") "" (some "n") 9
        = (.badRequest, dbC10)) ∧
    ∃ o2, (fulfillOrderRoute dbC10 "o1" (some "google_sheets")
        "https://sheets.example/y" (some "done") 9).1 = .ok o2 ∧
      o2.id = "o1" ∧ o2.status = "completed" ∧
      o2.csvUrl = some "https://sheets.example/y" ∧
      o2.deliveryType = some "google_sheets" ∧ o2.notes = some "done" ∧
      o2.completedAt = some 9 := by
  constructor
  · exact (claim7_amended_fulfillOrder dbC10 "o1" (some "google_sheets") ""
      (some "n") 9).1 rfl
  · exact (claim7_amended_fulfillOrder dbC10 "o1" (some "google_sheets")
      "https://sheets.example/y" (some "done") 9).2.2.1 (by decide) (by decide)

/-- Counterexample to claim C8: with the `affiliate_code` foreign key of
`schema.ts` line 101 in force, a click on a code carried by no user fails
(the insert is rejected) instead of always succeeding. -/
theorem claim8_counterexample_unknown_code_click_fails :
    trackAffiliateClick dbC8 "ZZZZ" (some "1.2.3.4") (some "UA") none
      = none := rfl

/-- Claim C8 as amended: `trackClick` performs no validity check itself, but
the schema's foreign key makes the insert land only for codes some user
carries — then exactly one row with the code, IP, user-agent and referrer is
appended; for a code carried by no user the insert fails and no row lands. -/
theorem claim8_amended_trackClick (db : DB) (code : String)
    (ip ua ref : Option String) :
    ((∃ u ∈ db.users, u.affiliateCode = some code) →
      ∃ c db2, trackAffiliateClick db code ip ua ref = some (c, db2) ∧
        db2.clicks = db.clicks ++ [c] ∧ c.affiliateCode = code ∧
        c.ipAddress = ip ∧ c.userAgent = ua ∧ c.referrerUrl = ref) ∧
    ((∀ u ∈ db.users, u.affiliateCode ≠ some code) →
      trackAffiliateClick db code ip ua ref = none) := by
  constructor
  · intro hex
    have hany : db.users.any (fun u => u.affiliateCode = some code) = true := by
      rw [List.any_eq_true]
      obtain ⟨u, hu, hc⟩ := hex
      exact ⟨u, hu, by simp [hc]⟩
    have hres : trackAffiliateClick db code ip ua ref
        = some ({ id := "row_" ++ toString db.nextId, affiliateCode := code,
                  ipAddress := ip, userAgent := ua, referrerUrl := ref },
                { db with
                    nextId := db.nextId + 1,
                    clicks := db.clicks ++
                      [{ id := "row_" ++ toString db.nextId,
                         affiliateCode := code, ipAddress := ip,
                         userAgent := ua, referrerUrl := ref }] }) := by
      unfold trackAffiliateClick
      rw [if_pos hany]
      rfl
    exact ⟨_, _, hres, rfl, rfl, rfl, rfl, rfl⟩
  · intro hall
    have hany : db.users.any (fun u => u.affiliateCode = some code) = false := by
      rw [List.any_eq_false]
      intro u hu
      simpa using hall u hu
    unfold trackAffiliateClick
    rw [if_neg (by simp [hany])]

/-- Witness for the amended claim C8: a click on the live code `QWERTY`
inserts exactly one row recording code, IP, user-agent and referrer. -/
theorem claim8_amended_trackClick_witness :
    ∃ c db2, trackAffiliateClick dbC3 "QWERTY" (some "9.9.9.9") (some "UA")
        (some "https://ref.example") = some (c, db2) ∧
      db2.clicks = dbC3.clicks ++ [c] ∧ c.affiliateCode = "QWERTY" ∧
      c.ipAddress = some "9.9.9.9" ∧ c.userAgent = some "UA" ∧
      c.referrerUrl = some "https://ref.example" :=
  (claim8_amended_trackClick dbC3 "QWERTY" (some "9.9.9.9") (some "UA")
    (some "https://ref.example")).1 (by decide)

/-- Claim C9: `markCommissionsPaid` is idempotent with respect to final
status — after either of two successive runs every referenced commission is
`paid`, and after the second the `paymentMonth` is the second call's
argument (with `paidAt` re-stamped to the second timestamp). -/
theorem claim9_markCommissionsPaid_idempotent (db : DB) (ids : List String)
    (pm1 pm2 : String) (t1 t2 : Nat) :
    (∀ c ∈ (markCommissionsPaid db ids pm1 t1).commissions, c.id ∈ ids →
      c.status = "paid" ∧ c.paymentMonth = some pm1 ∧ c.paidAt = some t1) ∧
    (∀ c ∈ (markCommissionsPaid (markCommissionsPaid db ids pm1 t1) ids pm2
        t2).commissions, c.id ∈ ids →
      c.status = "paid" ∧ c.paymentMonth = some pm2 ∧ c.paidAt = some t2) :=
  ⟨fun c hc hid => markCommissionsPaid_marked db ids pm1 t1 c hc hid,
   fun c hc hid => markCommissionsPaid_marked _ ids pm2 t2 c hc hid⟩

/-- Witness for claim C9: marking `k1` paid for 2025-05 and then again for
2025-06 leaves it paid with the second month and timestamp. -/
theorem claim9_markCommissionsPaid_idempotent_witness :
    ∃ c, c ∈ (markCommissionsPaid (markCommissionsPaid dbC9 ["k1"] "2025-05" 5)
        ["k1"] "2025-06" 6).commissions ∧ c.id ∈ ["k1"] ∧
      c.status = "paid" ∧ c.paymentMonth = some "2025-06" ∧
      c.paidAt = some 6 := by
  have hmem : ({ cRowC9 with
        status := "paid", paymentMonth := some "2025-06", paidAt := some 6 }
        : AffiliateCommission)
      ∈ (markCommissionsPaid (markCommissionsPaid dbC9 ["k1"] "2025-05" 5)
          ["k1"] "2025-06" 6).commissions := List.mem_singleton_self _
  have hid : ({ cRowC9 with
        status := "paid", paymentMonth := some "2025-06", paidAt := some 6 }
        : AffiliateCommission).id ∈ ["k1"] := by decide
  obtain ⟨h1, h2, h3⟩ := (claim9_markCommissionsPaid_idempotent dbC9 ["k1"]
    "2025-05" "2025-06" 5 6).2 _ hmem hid
  exact ⟨_, hmem, hid, h1, h2, h3⟩

/-- Claim C10: fulfillment imposes no precondition on the order's current
status — whatever state the matched order is in, the route overwrites
`csvUrl`, `deliveryType`, `notes` and `completedAt` and sets the status to
`completed`; running it again replaces the previously recorded delivery
artifact. -/
theorem claim10_fulfill_overwrites_any_status (db : DB) (oid : String)
    (dt1 : Option String) (url1 : String) (n1 : Option String) (t1 : Nat)
    (dt2 : Option String) (url2 : String) (n2 : Option String) (t2 : Nat)
    (h1 : url1 ≠ "") (h2 : url2 ≠ "") (hex : ∃ o ∈ db.orders, o.id = oid) :
    (∃ o1, (fulfillOrderRoute db oid dt1 url1 n1 t1).1 = .ok o1 ∧
      o1.id = oid ∧ o1.status = "completed" ∧ o1.csvUrl = some url1 ∧
      o1.deliveryType = dt1 ∧ o1.notes = n1 ∧ o1.completedAt = some t1) ∧
    (∃ o2, (fulfillOrderRoute (fulfillOrderRoute db oid dt1 url1 n1 t1).2 oid
        dt2 url2 n2 t2).1 = .ok o2 ∧
      o2.id = oid ∧ o2.status = "completed" ∧ o2.csvUrl = some url2 ∧
      o2.deliveryType = dt2 ∧ o2.notes = n2 ∧ o2.completedAt = some t2) := by
  obtain ⟨o1, ha1, ha2, ha3, ha4, ha5, ha6, ha7, _, hstill⟩ :=
    fulfillOrderRoute_success db oid dt1 url1 n1 t1 h1 hex
  obtain ⟨o2, hb1, hb2, hb3, hb4, hb5, hb6, hb7, _, _⟩ :=
    fulfillOrderRoute_success (fulfillOrderRoute db oid dt1 url1 n1 t1).2 oid
      dt2 url2 n2 t2 h2 hstill
  exact ⟨⟨o1, ha1, ha2, ha3, ha4, ha5, ha6, ha7⟩,
         ⟨o2, hb1, hb2, hb3, hb4, hb5, hb6, hb7⟩⟩

/-- Witness for claim C10: fulfilling order `o1` twice with different links
succeeds both times, the second run replacing the first delivery artifact. -/
theorem claim10_fulfill_overwrites_any_status_witness :
    (∃ o1, (fulfillOrderRoute dbC10 "o1" (some "csv_file")
        "https://files.example/a.csv" none 3).1 = .ok o1 ∧
      o1.id = "o1" ∧ o1.status = "completed" ∧
      o1.csvUrl = some "https://files.example/a.csv" ∧
      o1.deliveryType = some "csv_file" ∧ o1.notes = none ∧
      o1.completedAt = some 3) ∧
    (∃ o2, (fulfillOrderRoute (fulfillOrderRoute dbC10 "o1" (some "csv_file")
        "https://files.example/a.csv" none 3).2 "o1" (some "google_sheets")
        "https://sheets.example/b" (some "redo") 4).1 = .ok o2 ∧
      o2.id = "o1" ∧ o2.status = "completed" ∧
      o2.csvUrl = some "https://sheets.example/b" ∧
      o2.deliveryType = some "google_sheets" ∧ o2.notes = some "redo" ∧
      o2.completedAt = some 4) :=
  claim10_fulfill_overwrites_any_status dbC10 "o1" (some "csv_file")
    "https://files.example/a.csv" none 3 (some "google_sheets")
    "https://sheets.example/b" (some "redo") 4 (by decide) (by decide)
    (by decide)

/-- Witness for claim C1 at a concrete database: a user with 5000 credits and
an order for 6000 credits is rejected, the database is unchanged. -/
theorem claim1_createOrder_credit_ledger_witness :
    let u : User := { id := "u1", email := "a@b.c", credits := 5000,
                      affiliateCode := none, referredBy := none }
    let db : DB := { users := [u], orders := [], purchases := [], clicks := [],
                     commissions := [], nextId := 0 }
    ((createOrderRoute db "u1" "https://apollo.io/s" 6000 none "a@b.c").1
        = .insufficientCredits) ∧
    (createOrderRoute db "u1" "https://apollo.io/s" 6000 none "a@b.c").2 = db := by
  intro u db
  have h := claim1_createOrder_credit_ledger db "u1" "https://apollo.io/s" 6000 none
    "a@b.c" u (by decide)
  exact ⟨(h.1).mpr (by decide), h.2.1 (by decide)⟩
